import Mathlib

/-!
# eventmaster: rsyslog ingestion and instrumented HTTP routing

A shallow embedding of `rsyslog_server.go` and of the routing part of
`server.go`, followed by the properties established about them.

Go strings are byte sequences; a byte is kept as a natural number.
Side effects (log lines, clock reads, parser invocations, `AddEvent` calls,
metric updates) are recorded in an explicit `Effects` record that every
operation threads through. A Go panic is the `Step.panicked` result.
-/

set_option autoImplicit false

namespace Eventmaster

/-! ## Go strings and `strings.Split` -/

/-- A Go string: a sequence of bytes. -/
abbrev GoString := List Nat

/-- The bytes of an ASCII string literal of the source. -/
def str (s : String) : GoString := s.toList.map Char.toNat

/-- Scanning loop behind `strings.Split(s, sep)` for a non-empty `sep`:
`skip` counts the bytes of a separator just matched that are still to be
passed over, `cur` holds the bytes of the current piece, newest first. -/
def splitGo (sep : GoString) : GoString → Nat → GoString → List GoString
  | [], _, cur => [cur.reverse]
  | _ :: rest, skip + 1, cur => splitGo sep rest skip cur
  | c :: rest, 0, cur =>
    if sep.isPrefixOf (c :: rest) then
      cur.reverse :: splitGo sep rest (sep.length - 1) []
    else splitGo sep rest 0 (c :: cur)

/-- Go `strings.Split(s, sep)` for a non-empty separator: the pieces of `s`
between the leftmost non-overlapping occurrences of `sep`. -/
def stringsSplit (s sep : GoString) : List GoString := splitGo sep s 0 []

/-- The line separator of `handleLogRequest`. -/
def newline : GoString := str "\n"

/-- The field separator of `handleLogRequest`. -/
def fieldSep : GoString := str "^0"

/-- Appends `p` to the last piece of a split. -/
def appendLast : List GoString → GoString → List GoString
  | [], _ => []
  | [x], p => [x ++ p]
  | x :: y :: r, p => x :: appendLast (y :: r) p

/-! ## Events and the auditd parser -/

/-- A value held in a Go `map[string]interface{}`: a string, or a value of
some other dynamic type. -/
inductive Value where
  | string (s : GoString)
  | other (tag : Nat)
  deriving DecidableEq, Repr

/-- The type assertion `val.(string)`; `none` is the run-time panic of a
failed assertion. -/
def Value.assertString : Value → Option GoString
  | .string s => some s
  | .other _ => none

/-- A Go `map[string]interface{}` as an association list (first entry of a
key is the one a read sees). -/
abbrev GoMap := List (GoString × Value)

/-- The comma-ok read `val, ok := data[key]`. -/
def mapGet (data : GoMap) (key : GoString) : Option Value := List.lookup key data

/-- The fields of `UnaddedEvent` that `parseAuditd` sets. -/
structure UnaddedEvent where
  EventTime : Int
  TopicName : GoString
  DC : GoString
  Tags : List GoString
  Host : GoString
  User : GoString
  Data : GoMap
  deriving DecidableEq, Repr

/-- The type `LogParser`; `none` is a panic inside the parser. -/
abbrev LogParser := Int → GoString → GoString → GoString → GoString → Option UnaddedEvent

/-- The function `parseAuditd`. The helper `parseKeyValuePair` is not part of
the given sources and is a parameter. -/
def parseAuditd (parseKeyValuePair : GoString → GoMap) (timestamp : Int)
    (dc host topic msg : GoString) : Option UnaddedEvent :=
  let data := parseKeyValuePair msg
  let user : Option GoString :=
    match mapGet data (str "uid") with
    | some val => val.assertString
    | none =>
      match mapGet data (str "ouid") with
      | some val => val.assertString
      | none => some (str "")
  let tags : Option (List GoString) :=
    match mapGet data (str "type") with
    | some val => val.assertString.map (fun s => [s])
    | none => some []
  match user, tags with
  | some user, some tags =>
    some { EventTime := timestamp, TopicName := topic, DC := dc, Tags := tags,
           Host := host, User := user, Data := data }
  | _, _ => none

/-- The table `logParserMap`. -/
def logParserMap (parseKeyValuePair : GoString → GoMap) : List (GoString × LogParser) :=
  [(str "auditd", parseAuditd parseKeyValuePair)]

/-! ## Effects and the environment -/

/-- A line written through `log.Errorf`. -/
inductive LogLine where
  | readError
  | timestampError (field0 : GoString)
  | addEventError
  | unrecognizedTopic (topic : GoString)
  | acceptError
  deriving DecidableEq, Repr

/-- The arguments of one parser invocation. -/
structure ParserCall where
  timestamp : Int
  dc : GoString
  host : GoString
  topic : GoString
  message : GoString
  deriving DecidableEq, Repr

/-- Everything observable that the ingestion server has done so far. -/
structure Effects where
  /-- number of `time.Now()` reads -/
  clockReads : Nat
  logs : List LogLine
  parserCalls : List ParserCall
  /-- arguments of the `s.store.AddEvent` calls, oldest first -/
  addEventCalls : List UnaddedEvent
  /-- number of `conn.Close()` calls -/
  closes : Nat
  /-- number of `metrics.RsyslogLatency` observations -/
  latencies : Nat
  /-- number of `s.lis.Accept()` calls -/
  accepts : Nat
  deriving DecidableEq, Repr

/-- The state before anything has happened. -/
def Effects.init : Effects :=
  { clockReads := 0, logs := [], parserCalls := [], addEventCalls := [],
    closes := 0, latencies := 0, accepts := 0 }

/-- Result of running a piece of Go code: it ran to its end, or it panicked;
either way the effects performed up to that point are kept. -/
inductive Step where
  | done (st : Effects)
  | panicked (st : Effects)
  deriving DecidableEq, Repr

/-- The effects carried by a result. -/
def Step.effects : Step → Effects
  | .done st => st
  | .panicked st => st

/-- Whether the code ran to its end. -/
def Step.isDone : Step → Bool
  | .done _ => true
  | .panicked _ => false

/-- Runs deferred calls: they are executed on normal return and on panic. -/
def Step.mapEffects (f : Effects → Effects) : Step → Step
  | .done st => .done (f st)
  | .panicked st => .panicked (f st)

/-- What the code does not determine by itself. -/
structure Env where
  /-- the call `time.Parse(time.RFC3339, s)` followed by `.Unix()`; `none` is `err != nil` -/
  parseRFC3339 : GoString → Option Int
  /-- Unix seconds returned by the clock read number `k` -/
  now : Nat → Int
  /-- the helper `parseKeyValuePair` -/
  parseKeyValuePair : GoString → GoMap
  /-- whether the `AddEvent` call number `k` returns an error -/
  addEventFails : Nat → Bool

/-! ## `handleLogRequest` -/

/-- Lines 95 to 102: the timestamp of a frame. -/
def decodeTimestamp (env : Env) (field0 : GoString) (st : Effects) : Int × Effects :=
  match env.parseRFC3339 field0 with
  | none =>
    (env.now st.clockReads,
     { st with logs := st.logs ++ [LogLine.timestampError field0],
               clockReads := st.clockReads + 1 })
  | some t => (t, st)

/-- Lines 104 to 113: parser lookup by topic and submission to the store. -/
def dispatch (env : Env) (timestamp : Int) (dc host topic message : GoString)
    (st : Effects) : Step :=
  match List.lookup topic (logParserMap env.parseKeyValuePair) with
  | some parser =>
    let st1 := { st with parserCalls := st.parserCalls ++ [⟨timestamp, dc, host, topic, message⟩] }
    match parser timestamp dc host topic message with
    | none => .panicked st1
    | some evt =>
      let st2 := { st1 with addEventCalls := st1.addEventCalls ++ [evt] }
      if env.addEventFails st1.addEventCalls.length then
        .done { st2 with logs := st2.logs ++ [LogLine.addEventError] }
      else .done st2
  | none => .done { st with logs := st.logs ++ [LogLine.unrecognizedTopic topic] }

/-- The body of the loop over `logs` (lines 89 to 114) for one line. -/
def processLine (env : Env) (lg : GoString) (st : Effects) : Step :=
  let parts := stringsSplit lg fieldSep
  if parts.length < 5 then .done st
  else
    let (timestamp, st1) := decodeTimestamp env (parts.getD 0 []) st
    dispatch env timestamp (parts.getD 1 []) (parts.getD 2 []) (parts.getD 3 [])
      (parts.getD 4 []) st1

/-- The loop `for _, lg := range logs`; a panic ends it. -/
def processLines (env : Env) : List GoString → Effects → Step
  | [], st => .done st
  | lg :: rest, st =>
    match processLine env lg st with
    | .done st1 => processLines env rest st1
    | .panicked st1 => .panicked st1

/-- The size of the buffer `buf`. -/
def bufSize : Nat := 20000

/-- What the single `conn.Read(buf)` does. -/
structure Conn where
  /-- the bytes the call delivers -/
  data : GoString
  /-- whether the call returns `err != nil` -/
  readFails : Bool
  deriving DecidableEq, Repr

/-- The buffer after `conn.Read(buf)`: at most `bufSize` delivered bytes
followed by the zero bytes `make` put there. -/
def readBuf (data : GoString) : GoString :=
  data.take bufSize ++ List.replicate (bufSize - (data.take bufSize).length) 0

/-- The lines `strings.Split(string(buf), "\n")` of the whole buffer. -/
def bufLines (data : GoString) : List GoString := stringsSplit (readBuf data) newline

/-- The deferred `conn.Close()`. -/
def closeConn (st : Effects) : Effects := { st with closes := st.closes + 1 }

/-- The deferred `metrics.RsyslogLatency(start)`. -/
def observeLatency (st : Effects) : Effects := { st with latencies := st.latencies + 1 }

/-- The read of `start := time.Now()`. -/
def readClock (st : Effects) : Effects := { st with clockReads := st.clockReads + 1 }

/-- Lines 83 to 86: the state after `conn.Read(buf)` and the check of its
error, which logs and goes on. -/
def afterRead (c : Conn) (st : Effects) : Effects :=
  if c.readFails then { st with logs := st.logs ++ [LogLine.readError] } else st

/-- The deferred calls of `handleLogRequest` once `defer conn.Close()` has been
reached, in the order they run. -/
def runDeferred (st : Effects) : Effects := observeLatency (closeConn st)

/-- The method `handleLogRequest`; `conn = none` is the nil interface value,
on which `conn.Read` panics before `defer conn.Close()` is reached. -/
def handleLogRequest (env : Env) (conn : Option Conn) (st : Effects) : Step :=
  let st0 := readClock st
  match conn with
  | none => .panicked (observeLatency st0)
  | some c =>
    (processLines env (bufLines c.data) (afterRead c st0)).mapEffects runDeferred

/-! ## `AcceptLogs` -/

/-- What one `s.lis.Accept()` returns. -/
structure AcceptResult where
  conn : Option Conn
  /-- whether `err != nil` -/
  failed : Bool
  deriving DecidableEq, Repr

/-- One iteration of the accept loop. The goroutine started by
`go s.handleLogRequest(conn)` is run to its end at once. -/
def acceptIteration (env : Env) (a : AcceptResult) (st : Effects) : Step :=
  let st0 := { st with accepts := st.accepts + 1 }
  let st1 := if a.failed then { st0 with logs := st0.logs ++ [LogLine.acceptError] } else st0
  handleLogRequest env a.conn st1

/-- The loop of `AcceptLogs` over the results of the successive `Accept`
calls. A panic that no goroutine recovers ends the process, so no later
`Accept` takes place. -/
def acceptLoop (env : Env) : List AcceptResult → Effects → Step
  | [], st => .done st
  | a :: rest, st =>
    match acceptIteration env a st with
    | .done st1 => acceptLoop env rest st1
    | .panicked st1 => .panicked st1

/-! ## `latency` and `registerRoutes` -/

/-- A metric update. -/
inductive MetricEvent where
  | httpLatency (pfx : String)
  | httpStatus (pfx : String) (status : Nat)
  deriving DecidableEq, Repr

/-- What a run of a wrapped handler `h(lw, req, ps)` amounts to for the
wrapper: whether it returned (at its end or early) or panicked, and the status
`lw.Status()` reports afterwards. -/
structure HandlerRun where
  panics : Bool
  status : Nat
  deriving DecidableEq, Repr

/-- A handler of type `httprouter.Handle`, over requests numbered by `Nat`. -/
abbrev Handle := Nat → HandlerRun

/-- One invocation of the handler returned by `latency(prefix, h)`: the metric
updates it makes, in order, and whether the panic of `h` propagates. -/
def latency (pfx : String) (h : Handle) (req : Nat) : List MetricEvent × Bool :=
  let run := h req
  if run.panics then
    ([MetricEvent.httpLatency pfx], true)
  else
    ([MetricEvent.httpStatus pfx run.status, MetricEvent.httpLatency pfx], false)

/-- The business handlers that `registerRoutes` passes to `latency`. -/
inductive Inner where
  | method (name : String)
  | cors (name : String)
  deriving DecidableEq, Repr

/-- The handler expression of a registration. -/
inductive HandlerExpr where
  | latency (pfx : String) (h : Inner)
  | promhttpHandler
  | fileServer
  deriving DecidableEq, Repr

/-- One registration on the router. -/
structure Route where
  method : String
  path : String
  handler : HandlerExpr
  deriving DecidableEq, Repr

/-- The registrations of `registerRoutes`, in source order. -/
def registerRoutes : List Route :=
  [ ⟨"POST", "/v1/event", .latency "/v1/event" (.method "handleAddEvent")⟩,
    ⟨"GET", "/v1/event", .latency "/v1/event" (.method "handleGetEvent")⟩,
    ⟨"GET", "/v1/event/:id", .latency "/v1/event" (.method "handleGetEventByID")⟩,
    ⟨"POST", "/v1/topic", .latency "/v1/topic" (.method "handleAddTopic")⟩,
    ⟨"PUT", "/v1/topic/:name", .latency "/v1/topic" (.method "handleUpdateTopic")⟩,
    ⟨"GET", "/v1/topic", .latency "/v1/topic" (.method "handleGetTopic")⟩,
    ⟨"DELETE", "/v1/topic/:name", .latency "/v1/topic" (.method "handleDeleteTopic")⟩,
    ⟨"POST", "/v1/dc", .latency "/v1/dc" (.method "handleAddDC")⟩,
    ⟨"PUT", "/v1/dc/:name", .latency "/v1/dc" (.method "handleUpdateDC")⟩,
    ⟨"GET", "/v1/dc", .latency "/v1/dc" (.method "handleGetDC")⟩,
    ⟨"GET", "/v1/health", .latency "/v1/health" (.method "handleHealthCheck")⟩,
    ⟨"POST", "/v1/github_event", .latency "/v1/github_event" (.method "handleGitHubEvent")⟩,
    ⟨"GET", "/", .latency "/" (.method "HandleMainPage")⟩,
    ⟨"GET", "/add_event", .latency "/add_event" (.method "HandleCreatePage")⟩,
    ⟨"GET", "/topic", .latency "/topic" (.method "HandleTopicPage")⟩,
    ⟨"GET", "/dc", .latency "/dc" (.method "HandleDCPage")⟩,
    ⟨"GET", "/event", .latency "/event" (.method "HandleGetEventPage")⟩,
    ⟨"GET", "/grafana", .latency "/grafana" (.cors "grafanaOK")⟩,
    ⟨"GET", "/grafana/", .latency "/grafana/" (.cors "grafanaOK")⟩,
    ⟨"OPTIONS", "/grafana/:route", .latency "/grafana" (.cors "grafanaOK")⟩,
    ⟨"POST", "/grafana/annotations", .latency "/grafana/annotations" (.cors "grafanaAnnotations")⟩,
    ⟨"POST", "/grafana/search", .latency "/grafana/search" (.cors "grafanaSearch")⟩,
    ⟨"GET", "/metrics", .promhttpHandler⟩,
    ⟨"GET", "/ui/*filepath", .fileServer⟩,
    ⟨"GET", "/version/", .latency "/version/" (.method "version")⟩ ]

/-- Whether a registered handler is one built by `latency(...)`. -/
def HandlerExpr.isLatencyWrapped : HandlerExpr → Bool
  | .latency _ _ => true
  | .promhttpHandler => false
  | .fileServer => false

/-! ## Vocabulary of the statements -/

/-- Whether a line reaches `AddEvent`: it has at least 5 fields and its topic
is a key of `logParserMap`. -/
def submits (parseKeyValuePair : GoString → GoMap) (lg : GoString) : Bool :=
  let parts := stringsSplit lg fieldSep
  decide (5 ≤ parts.length) &&
    (List.lookup (parts.getD 3 []) (logParserMap parseKeyValuePair)).isSome

/-- Datacenter, host, topic and parsed message of a line. -/
def frameOfLine (parseKeyValuePair : GoString → GoMap) (lg : GoString) :
    GoString × GoString × GoString × GoMap :=
  let parts := stringsSplit lg fieldSep
  (parts.getD 1 [], parts.getD 2 [], parts.getD 3 [], parseKeyValuePair (parts.getD 4 []))

/-- Datacenter, host, topic and data of a submitted event. -/
def frameOfEvent (e : UnaddedEvent) : GoString × GoString × GoString × GoMap :=
  (e.DC, e.Host, e.TopicName, e.Data)

/-- Forgets the log lines. -/
def Effects.dropLogs (st : Effects) : Effects := { st with logs := [] }

/-- The record line of the examples. -/
def sampleLine : GoString :=
  str "2017-01-01T00:00:00Z^0dc1^0host1^0auditd^0uid=42 type=PATH"

/-- A line with five fields and the topic `nginx`, which has no parser. -/
def sampleUnknownLine : GoString :=
  str "2017-01-01T00:00:00Z^0dc1^0host1^0nginx^0GET /index"

/-- Two lines in one read: one without a field separator, then the record
line. -/
def sampleBatch : GoString := str "no separators here\n" ++ sampleLine

/-- A key/value parser that finds `uid=42 type=PATH` in every message. -/
def sampleKeyValues : GoString → GoMap :=
  fun _ => [(str "uid", Value.string (str "42")), (str "type", Value.string (str "PATH"))]

/-- An environment for the examples: every timestamp parses to 1483228800,
the clock stands at 1500000000 and every `AddEvent` succeeds. -/
def sampleEnv : Env :=
  { parseRFC3339 := fun _ => some 1483228800
    now := fun _ => 1500000000
    parseKeyValuePair := sampleKeyValues
    addEventFails := fun _ => false }

/-- Whether a map value is a string. -/
def Value.isString : Value → Bool
  | .string _ => true
  | .other _ => false

/-- Whether every value of the map is a string. -/
def stringValued (data : GoMap) : Bool := data.all (fun kv => kv.2.isString)

/-! ## Lemmas on `strings.Split` -/

theorem splitGo_ne_nil (sep s : GoString) (k : Nat) (cur : GoString) :
    splitGo sep s k cur ≠ [] := by
  induction s generalizing k cur with
  | nil => simp [splitGo]
  | cons c rest ih =>
    cases k with
    | zero =>
      simp only [splitGo]
      split
      · simp
      · exact ih _ _
    | succ k => simp only [splitGo]; exact ih _ _

theorem appendLast_cons (x : GoString) (l : List GoString) (p : GoString) (h : l ≠ []) :
    appendLast (x :: l) p = x :: appendLast l p := by
  cases l with
  | nil => exact absurd rfl h
  | cons y r => rfl

theorem isPrefixOf_pad (sep s : GoString) (k : Nat) (z : Nat) (hz : z ∉ sep) :
    sep.isPrefixOf (s ++ List.replicate k z) = sep.isPrefixOf s := by
  induction sep generalizing s with
  | nil => simp
  | cons a sep ih =>
    have hza : ¬ a = z := fun h => hz (h ▸ List.mem_cons_self a sep)
    have hzs : z ∉ sep := fun h => hz (List.mem_cons_of_mem _ h)
    cases s with
    | nil =>
      cases k with
      | zero => simp
      | succ k => simp [List.replicate_succ, List.isPrefixOf, hza]
    | cons b s =>
      rw [List.cons_append]
      simp only [List.isPrefixOf]
      rw [ih s hzs]

theorem splitGo_replicate (sep : GoString) (z : Nat) (hz : z ∉ sep) (hne : sep ≠ [])
    (k : Nat) (cur : GoString) :
    splitGo sep (List.replicate k z) 0 cur = [cur.reverse ++ List.replicate k z] := by
  induction k generalizing cur with
  | zero => simp [splitGo]
  | succ k ih =>
    have hp : sep.isPrefixOf (z :: List.replicate k z) = false := by
      cases sep with
      | nil => exact absurd rfl hne
      | cons a sep =>
        simp [List.isPrefixOf]
        intro h; exact absurd (List.mem_cons_self a sep) (h ▸ hz)
    simp only [List.replicate_succ, splitGo, hp]
    rw [ih]
    simp

theorem isPrefixOf_length (sep s : GoString) (h : sep.isPrefixOf s = true) :
    sep.length ≤ s.length := by
  induction sep generalizing s with
  | nil => simp
  | cons a sep ih =>
    cases s with
    | nil => simp [List.isPrefixOf] at h
    | cons b s =>
      simp only [List.isPrefixOf, Bool.and_eq_true] at h
      simpa using ih s h.2

theorem splitGo_pad (sep : GoString) (z : Nat) (hz : z ∉ sep) (hne : sep ≠ [])
    (s : GoString) (k skip : Nat) (cur : GoString) (hskip : skip ≤ s.length) :
    splitGo sep (s ++ List.replicate k z) skip cur
      = appendLast (splitGo sep s skip cur) (List.replicate k z) := by
  induction s generalizing skip cur with
  | nil =>
    have : skip = 0 := by simpa using hskip
    subst this
    simp [splitGo_replicate sep z hz hne, splitGo, appendLast]
  | cons c rest ih =>
    rw [List.cons_append]
    cases skip with
    | succ skip =>
      simp only [splitGo]
      exact ih _ _ (by simpa using hskip)
    | zero =>
      have hp := isPrefixOf_pad sep (c :: rest) k z hz
      rw [List.cons_append] at hp
      by_cases hpre : sep.isPrefixOf (c :: rest) = true
      · rw [hpre] at hp
        simp only [splitGo, hp, hpre, if_true]
        rw [appendLast_cons _ _ _ (splitGo_ne_nil _ _ _ _)]
        congr 1
        apply ih
        have := isPrefixOf_length _ _ hpre
        simp at this; omega
      · have hpre2 : sep.isPrefixOf (c :: rest) = false := Bool.eq_false_iff.mpr hpre
        rw [hpre2] at hp
        simp only [splitGo, hp, hpre2]
        exact ih _ _ (Nat.zero_le _)

/-- Zero bytes after the data only lengthen the last piece of a split whose
separator has no zero byte. -/
theorem stringsSplit_pad (sep : GoString) (hz : 0 ∉ sep) (hne : sep ≠ [])
    (s : GoString) (k : Nat) :
    stringsSplit (s ++ List.replicate k 0) sep
      = appendLast (stringsSplit s sep) (List.replicate k 0) :=
  splitGo_pad sep 0 hz hne s k 0 [] (Nat.zero_le _)

/-- The buffer of a read that delivers at most `bufSize` bytes. -/
theorem readBuf_of_le (data : GoString) (h : data.length ≤ bufSize) :
    readBuf data = data ++ List.replicate (bufSize - data.length) 0 := by
  unfold readBuf
  rw [List.take_of_length_le h]

/-- The lines of the buffer of a read that delivers at most `bufSize` bytes. -/
theorem bufLines_of_le (data : GoString) (h : data.length ≤ bufSize) :
    bufLines data
      = appendLast (stringsSplit data newline) (List.replicate (bufSize - data.length) 0) := by
  unfold bufLines
  rw [readBuf_of_le data h]
  exact stringsSplit_pad newline (by decide) (by decide) data _

/-! ## Lemmas on maps -/

theorem mapGet_string (data : GoMap) (h : stringValued data = true) (key : GoString)
    (val : Value) (hget : mapGet data key = some val) : ∃ s, val = Value.string s := by
  induction data with
  | nil => simp [mapGet, List.lookup] at hget
  | cons kv rest ih =>
    obtain ⟨k, v⟩ := kv
    simp only [stringValued, List.all_cons, Bool.and_eq_true] at h
    simp only [mapGet, List.lookup] at hget
    by_cases hk : (key == k) = true
    · simp only [hk] at hget
      cases hget
      cases val with
      | string s => exact ⟨s, rfl⟩
      | other t => simp [Value.isString] at h
    · have hk2 : (key == k) = false := Bool.eq_false_iff.mpr hk
      simp only [hk2] at hget
      exact ih h.2 hget

/-! ## The auditd parser -/

/-- What `parseAuditd` returns on a key/value map with string values. -/
theorem parseAuditd_of_stringValued (parseKeyValuePair : GoString → GoMap) (timestamp : Int)
    (dc host topic msg : GoString) (hstr : stringValued (parseKeyValuePair msg) = true) :
    ∃ evt, parseAuditd parseKeyValuePair timestamp dc host topic msg = some evt ∧
      evt.EventTime = timestamp ∧ evt.TopicName = topic ∧ evt.DC = dc ∧ evt.Host = host ∧
      evt.Data = parseKeyValuePair msg ∧
      (∀ s, mapGet (parseKeyValuePair msg) (str "uid") = some (Value.string s) → evt.User = s) ∧
      (mapGet (parseKeyValuePair msg) (str "uid") = none →
        ∀ s, mapGet (parseKeyValuePair msg) (str "ouid") = some (Value.string s) →
          evt.User = s) ∧
      (mapGet (parseKeyValuePair msg) (str "uid") = none →
        mapGet (parseKeyValuePair msg) (str "ouid") = none → evt.User = str "") ∧
      (∀ s, mapGet (parseKeyValuePair msg) (str "type") = some (Value.string s) →
        evt.Tags = [s]) ∧
      (mapGet (parseKeyValuePair msg) (str "type") = none → evt.Tags = []) := by
  have hs := mapGet_string (parseKeyValuePair msg) hstr
  cases hu : mapGet (parseKeyValuePair msg) (str "uid") with
  | some vu =>
    obtain ⟨su, rfl⟩ := hs _ _ hu
    cases ht : mapGet (parseKeyValuePair msg) (str "type") with
    | some vt =>
      obtain ⟨s2, rfl⟩ := hs _ _ ht
      simp [parseAuditd, hu, ht, Value.assertString]
    | none => simp [parseAuditd, hu, ht, Value.assertString]
  | none =>
    cases ho : mapGet (parseKeyValuePair msg) (str "ouid") with
    | some vo =>
      obtain ⟨so, rfl⟩ := hs _ _ ho
      cases ht : mapGet (parseKeyValuePair msg) (str "type") with
      | some vt =>
        obtain ⟨s2, rfl⟩ := hs _ _ ht
        simp [parseAuditd, hu, ho, ht, Value.assertString]
      | none => simp [parseAuditd, hu, ho, ht, Value.assertString]
    | none =>
      cases ht : mapGet (parseKeyValuePair msg) (str "type") with
      | some vt =>
        obtain ⟨s2, rfl⟩ := hs _ _ ht
        simp [parseAuditd, hu, ho, ht, Value.assertString]
      | none => simp [parseAuditd, hu, ho, ht, Value.assertString]

/-- C3: on a key/value map with string values, `parseAuditd` returns an event
whose `User` is `data["uid"]` when `uid` is present (whether or not `ouid` is),
otherwise `data["ouid"]` when `ouid` is present, otherwise the empty string,
and whose `Tags` is `[data["type"]]` when `type` is present and empty otherwise;
the other fields are the arguments and the map itself. -/
theorem parseAuditd_user_and_tags (parseKeyValuePair : GoString → GoMap) (timestamp : Int)
    (dc host topic msg : GoString) (hstr : stringValued (parseKeyValuePair msg) = true) :
    ∃ evt, parseAuditd parseKeyValuePair timestamp dc host topic msg = some evt ∧
      evt.EventTime = timestamp ∧ evt.TopicName = topic ∧ evt.DC = dc ∧ evt.Host = host ∧
      evt.Data = parseKeyValuePair msg ∧
      (∀ s, mapGet (parseKeyValuePair msg) (str "uid") = some (Value.string s) → evt.User = s) ∧
      (mapGet (parseKeyValuePair msg) (str "uid") = none →
        ∀ s, mapGet (parseKeyValuePair msg) (str "ouid") = some (Value.string s) →
          evt.User = s) ∧
      (mapGet (parseKeyValuePair msg) (str "uid") = none →
        mapGet (parseKeyValuePair msg) (str "ouid") = none → evt.User = str "") ∧
      (∀ s, mapGet (parseKeyValuePair msg) (str "type") = some (Value.string s) →
        evt.Tags = [s]) ∧
      (mapGet (parseKeyValuePair msg) (str "type") = none → evt.Tags = []) :=
  parseAuditd_of_stringValued parseKeyValuePair timestamp dc host topic msg hstr

/-- The three examples of the auditd parser: `uid=42 type=PATH`, `ouid=7`
alone, and neither key. -/
theorem parseAuditd_examples :
    parseAuditd sampleKeyValues 5 (str "dc1") (str "host1") (str "auditd") (str "uid=42 type=PATH")
      = some { EventTime := 5, TopicName := str "auditd", DC := str "dc1", Tags := [str "PATH"],
               Host := str "host1", User := str "42",
               Data := [(str "uid", Value.string (str "42")),
                        (str "type", Value.string (str "PATH"))] } ∧
    parseAuditd (fun _ => [(str "ouid", Value.string (str "7"))]) 5 (str "dc1") (str "host1")
        (str "auditd") (str "ouid=7")
      = some { EventTime := 5, TopicName := str "auditd", DC := str "dc1", Tags := [],
               Host := str "host1", User := str "7",
               Data := [(str "ouid", Value.string (str "7"))] } ∧
    parseAuditd (fun _ => []) 5 (str "dc1") (str "host1") (str "auditd") (str "x")
      = some { EventTime := 5, TopicName := str "auditd", DC := str "dc1", Tags := [],
               Host := str "host1", User := str "", Data := [] } := by
  refine ⟨by decide, by decide, by decide⟩

/-- The statement C3 at the map `uid=42 type=PATH`. -/
theorem parseAuditd_user_and_tags_witness :
    stringValued (sampleKeyValues (str "uid=42 type=PATH")) = true ∧
    ∃ evt, parseAuditd sampleKeyValues 5 (str "dc1") (str "host1") (str "auditd")
        (str "uid=42 type=PATH") = some evt ∧
      evt.EventTime = 5 ∧ evt.TopicName = str "auditd" ∧ evt.DC = str "dc1" ∧
      evt.Host = str "host1" ∧
      evt.Data = sampleKeyValues (str "uid=42 type=PATH") ∧
      (∀ s, mapGet (sampleKeyValues (str "uid=42 type=PATH")) (str "uid")
        = some (Value.string s) → evt.User = s) ∧
      (mapGet (sampleKeyValues (str "uid=42 type=PATH")) (str "uid") = none →
        ∀ s, mapGet (sampleKeyValues (str "uid=42 type=PATH")) (str "ouid")
          = some (Value.string s) → evt.User = s) ∧
      (mapGet (sampleKeyValues (str "uid=42 type=PATH")) (str "uid") = none →
        mapGet (sampleKeyValues (str "uid=42 type=PATH")) (str "ouid") = none →
          evt.User = str "") ∧
      (∀ s, mapGet (sampleKeyValues (str "uid=42 type=PATH")) (str "type")
        = some (Value.string s) → evt.Tags = [s]) ∧
      (mapGet (sampleKeyValues (str "uid=42 type=PATH")) (str "type") = none →
        evt.Tags = []) :=
  ⟨by decide,
   parseAuditd_user_and_tags sampleKeyValues 5 (str "dc1") (str "host1") (str "auditd")
     (str "uid=42 type=PATH") (by decide)⟩

/-! ## The HTTP wrapper and the route table -/

/-- C7: when the wrapped handler panics, one invocation of the handler built by
`latency` makes the latency observation and no status counter increment, and
the panic propagates: the status update is made only when the handler returns. -/
theorem latency_panic_skips_status (pfx : String) (req status : Nat) :
    latency pfx (fun _ => { panics := true, status := status }) req
      = ([MetricEvent.httpLatency pfx], true) := by
  rfl

/-- When the wrapped handler returns, at its end or early, the wrapper makes
one status counter increment with the recorded status and then one latency
observation. -/
theorem latency_return_records_both (pfx : String) (h : Handle) (req : Nat)
    (hret : (h req).panics = false) :
    latency pfx h req
      = ([MetricEvent.httpStatus pfx (h req).status, MetricEvent.httpLatency pfx], false) := by
  simp [latency, hret]

/-- C8 as stated fails: `GET /metrics` is registered, and its handler is
`promhttp.Handler()`, which is not built by `latency`. -/
theorem registerRoutes_metrics_unwrapped :
    (⟨"GET", "/metrics", HandlerExpr.promhttpHandler⟩ : Route) ∈ registerRoutes ∧
    HandlerExpr.promhttpHandler.isLatencyWrapped = false ∧
    ¬ (∀ r, r ∈ registerRoutes → r.handler.isLatencyWrapped = true) := by
  refine ⟨by decide, by decide, fun h => ?_⟩
  have := h ⟨"GET", "/metrics", HandlerExpr.promhttpHandler⟩ (by decide)
  exact absurd this (by decide)

/-- C8 amended: every registration other than `GET /metrics` and
`GET /ui/*filepath` has a handler built by `latency`, and those two have not. -/
theorem registerRoutes_wrapped_except_two (r : Route) (hr : r ∈ registerRoutes) :
    r.handler.isLatencyWrapped = true ↔
      ¬ (r.method = "GET" ∧ (r.path = "/metrics" ∨ r.path = "/ui/*filepath")) := by
  revert r
  decide

/-- The statement C8 amended at the registration of `POST /v1/event`. -/
theorem registerRoutes_wrapped_except_two_witness :
    (⟨"POST", "/v1/event", HandlerExpr.latency "/v1/event" (Inner.method "handleAddEvent")⟩ : Route)
      ∈ registerRoutes ∧
    ((HandlerExpr.latency "/v1/event" (Inner.method "handleAddEvent")).isLatencyWrapped = true ↔
      ¬ ("POST" = "GET" ∧ ("/v1/event" = "/metrics" ∨ "/v1/event" = "/ui/*filepath"))) :=
  ⟨by decide,
   registerRoutes_wrapped_except_two
     ⟨"POST", "/v1/event", HandlerExpr.latency "/v1/event" (Inner.method "handleAddEvent")⟩
     (by decide)⟩

/-! ## The accept loop -/

/-- C10: an iteration in which `Accept` returns an error with a nil connection
logs the error and then starts `handleLogRequest` on the nil connection, which
panics; the loop makes no further `Accept` call, whatever results were to come. -/
theorem acceptLoop_failed_accept_panics (env : Env) (rest : List AcceptResult) (st : Effects) :
    acceptLoop env ({ conn := none, failed := true } :: rest) st
      = Step.panicked { st with accepts := st.accepts + 1
                                logs := st.logs ++ [LogLine.acceptError]
                                clockReads := st.clockReads + 1
                                latencies := st.latencies + 1 } := by
  rfl

/-! ## One line of the buffer -/

/-- A line with fewer than 5 fields leaves the state as it is. -/
theorem processLine_short (env : Env) (lg : GoString) (st : Effects)
    (hshort : (stringsSplit lg fieldSep).length < 5) : processLine env lg st = Step.done st := by
  simp [processLine, hshort]

/-- A line with at least 5 fields goes through the timestamp and the lookup. -/
theorem processLine_long (env : Env) (lg : GoString) (st : Effects)
    (hlong : 5 ≤ (stringsSplit lg fieldSep).length) :
    processLine env lg st
      = dispatch env (decodeTimestamp env ((stringsSplit lg fieldSep).getD 0 []) st).1
          ((stringsSplit lg fieldSep).getD 1 []) ((stringsSplit lg fieldSep).getD 2 [])
          ((stringsSplit lg fieldSep).getD 3 []) ((stringsSplit lg fieldSep).getD 4 [])
          (decodeTimestamp env ((stringsSplit lg fieldSep).getD 0 []) st).2 := by
  have h : ¬ (stringsSplit lg fieldSep).length < 5 := by omega
  simp [processLine, h]

theorem processLines_append (env : Env) (pre post : List GoString) (st : Effects) :
    processLines env (pre ++ post) st
      = match processLines env pre st with
        | Step.done st1 => processLines env post st1
        | Step.panicked st1 => Step.panicked st1 := by
  induction pre generalizing st with
  | nil => simp [processLines]
  | cons lg rest ih =>
    simp only [List.cons_append, processLines]
    cases processLine env lg st with
    | done st1 => simpa using ih st1
    | panicked st1 => rfl

/-- The only key of `logParserMap` is `auditd`. -/
theorem lookup_logParserMap (parseKeyValuePair : GoString → GoMap) (topic : GoString) :
    List.lookup topic (logParserMap parseKeyValuePair)
      = if topic = str "auditd" then some (parseAuditd parseKeyValuePair) else none := by
  by_cases h : topic = str "auditd"
  · subst h
    simp [logParserMap, List.lookup]
  · have : (topic == str "auditd") = false := by simpa using h
    simp [logParserMap, List.lookup, this, h]

/-- C2: a line of the buffer with fewer than 5 fields is discarded: its
processing changes nothing (no parser invocation, no `AddEvent` call, no log
line, no panic), and the handler does on the whole buffer what it does on the
buffer without that line, so the other lines are processed as usual. -/
theorem short_line_discarded (env : Env) (c : Conn) (st : Effects)
    (pre post : List GoString) (lg : GoString)
    (hlines : bufLines c.data = pre ++ lg :: post)
    (hshort : (stringsSplit lg fieldSep).length < 5) :
    (∀ st1, processLine env lg st1 = Step.done st1) ∧
    handleLogRequest env (some c) st
      = (processLines env (pre ++ post) (afterRead c (readClock st))).mapEffects runDeferred := by
  refine ⟨fun st1 => processLine_short env lg st1 hshort, ?_⟩
  simp only [handleLogRequest, hlines]
  rw [processLines_append, processLines_append]
  cases processLines env pre (afterRead c (readClock st)) with
  | done st1 => simp [processLines, processLine_short env lg st1 hshort]
  | panicked st1 => rfl

/-- C4: a line with at least 5 fields whose topic is not `auditd` finds no
parser: its processing ends normally, adds no parser invocation and no
`AddEvent` call, logs the unrecognized topic, and the loop goes on with the
following lines. -/
theorem unregistered_topic_dropped (env : Env) (lg : GoString) (rest : List GoString)
    (st : Effects) (hlong : 5 ≤ (stringsSplit lg fieldSep).length)
    (htopic : (stringsSplit lg fieldSep).getD 3 [] ≠ str "auditd") :
    List.lookup ((stringsSplit lg fieldSep).getD 3 []) (logParserMap env.parseKeyValuePair) = none ∧
    (processLine env lg st).isDone = true ∧
    (processLine env lg st).effects.parserCalls = st.parserCalls ∧
    (processLine env lg st).effects.addEventCalls = st.addEventCalls ∧
    (processLine env lg st).effects.logs
      = (decodeTimestamp env ((stringsSplit lg fieldSep).getD 0 []) st).2.logs
          ++ [LogLine.unrecognizedTopic ((stringsSplit lg fieldSep).getD 3 [])] ∧
    processLines env (lg :: rest) st = processLines env rest (processLine env lg st).effects := by
  have hl := lookup_logParserMap env.parseKeyValuePair ((stringsSplit lg fieldSep).getD 3 [])
  rw [if_neg htopic] at hl
  have hp := processLine_long env lg st hlong
  simp only [dispatch, hl] at hp
  refine ⟨hl, ?_, ?_, ?_, ?_, ?_⟩
  · rw [hp]; rfl
  · rw [hp]; simp only [Step.effects, decodeTimestamp]; split <;> rfl
  · rw [hp]; simp only [Step.effects, decodeTimestamp]; split <;> rfl
  · rw [hp]; rfl
  · simp only [processLines, hp, Step.effects]

/-- C6: for a line with at least 5 fields, the timestamp handed to the parser
lookup is the value of field 0 when it parses as RFC3339; when it does not, it
is the clock value read at that moment, the failure is logged, and the frame
goes through the same lookup and submission; the auditd parser stores the
timestamp it is given as `EventTime`. -/
theorem timestamp_parsed_or_now (env : Env) (lg : GoString) (st : Effects)
    (hlong : 5 ≤ (stringsSplit lg fieldSep).length) :
    (∀ t, env.parseRFC3339 ((stringsSplit lg fieldSep).getD 0 []) = some t →
      processLine env lg st
        = dispatch env t ((stringsSplit lg fieldSep).getD 1 [])
            ((stringsSplit lg fieldSep).getD 2 []) ((stringsSplit lg fieldSep).getD 3 [])
            ((stringsSplit lg fieldSep).getD 4 []) st) ∧
    (env.parseRFC3339 ((stringsSplit lg fieldSep).getD 0 []) = none →
      processLine env lg st
        = dispatch env (env.now st.clockReads) ((stringsSplit lg fieldSep).getD 1 [])
            ((stringsSplit lg fieldSep).getD 2 []) ((stringsSplit lg fieldSep).getD 3 [])
            ((stringsSplit lg fieldSep).getD 4 [])
            { st with logs := st.logs
                        ++ [LogLine.timestampError ((stringsSplit lg fieldSep).getD 0 [])]
                      clockReads := st.clockReads + 1 }) ∧
    (∀ (timestamp : Int) (dc host topic msg : GoString) (evt : UnaddedEvent),
      parseAuditd env.parseKeyValuePair timestamp dc host topic msg = some evt →
        evt.EventTime = timestamp) := by
  have hp := processLine_long env lg st hlong
  refine ⟨fun t ht => ?_, fun hnone => ?_, ?_⟩
  · rw [hp]; simp only [decodeTimestamp, ht]
  · rw [hp]; simp only [decodeTimestamp, hnone]
  · intro timestamp dc host topic msg evt hevt
    simp only [parseAuditd] at hevt
    split at hevt
    · cases hevt; rfl
    · exact absurd hevt (by simp)

/-! ## The sample record on the wire -/

/-- The fields of the sample line when zero bytes follow it. -/
theorem sampleLine_fields (k : Nat) :
    stringsSplit (sampleLine ++ List.replicate k 0) fieldSep
      = [str "2017-01-01T00:00:00Z", str "dc1", str "host1", str "auditd",
         str "uid=42 type=PATH" ++ List.replicate k 0] := by
  rw [stringsSplit_pad fieldSep (by decide) (by decide)]
  have h : stringsSplit sampleLine fieldSep
      = [str "2017-01-01T00:00:00Z", str "dc1", str "host1", str "auditd",
         str "uid=42 type=PATH"] := by decide
  rw [h]
  rfl

/-- The buffer of a read that delivers the sample line holds one line: the
sample line followed by the 19942 zero bytes of the rest of the buffer. -/
theorem bufLines_sampleLine :
    bufLines sampleLine = [sampleLine ++ List.replicate 19942 0] := by
  rw [bufLines_of_le sampleLine (by decide)]
  have h : stringsSplit sampleLine newline = [sampleLine] := by decide
  have hk : bufSize - sampleLine.length = 19942 := by decide
  rw [h, hk]
  rfl

theorem processLines_singleton (env : Env) (lg : GoString) (st : Effects) :
    processLines env [lg] st = processLine env lg st := by
  simp only [processLines]
  cases processLine env lg st <;> rfl

/-- The sample line followed by zero bytes reaches the lookup with the zero
bytes at the end of its message. -/
theorem processLine_sampleLine (env : Env) (k : Nat) (st : Effects) :
    processLine env (sampleLine ++ List.replicate k 0) st
      = dispatch env (decodeTimestamp env (str "2017-01-01T00:00:00Z") st).1
          (str "dc1") (str "host1") (str "auditd")
          (str "uid=42 type=PATH" ++ List.replicate k 0)
          (decodeTimestamp env (str "2017-01-01T00:00:00Z") st).2 := by
  rw [processLine_long env _ st (by rw [sampleLine_fields]; simp)]
  rw [sampleLine_fields]
  rfl

/-- What the handler does with a connection whose read delivers the sample
line, whether or not the read also returns an error. -/
theorem handleLogRequest_sampleLine (env : Env) (readFails : Bool) (st : Effects) :
    handleLogRequest env (some { data := sampleLine, readFails := readFails }) st
      = (dispatch env
          (decodeTimestamp env (str "2017-01-01T00:00:00Z")
            (afterRead { data := sampleLine, readFails := readFails } (readClock st))).1
          (str "dc1") (str "host1") (str "auditd")
          (str "uid=42 type=PATH" ++ List.replicate 19942 0)
          (decodeTimestamp env (str "2017-01-01T00:00:00Z")
            (afterRead { data := sampleLine, readFails := readFails } (readClock st))).2
        ).mapEffects runDeferred := by
  simp only [handleLogRequest]
  rw [bufLines_sampleLine, processLines_singleton, processLine_sampleLine]

theorem dispatch_auditd_parserCalls (env : Env) (timestamp : Int) (dc host message : GoString)
    (st : Effects) :
    (dispatch env timestamp dc host (str "auditd") message st).effects.parserCalls
      = st.parserCalls ++ [⟨timestamp, dc, host, str "auditd", message⟩] := by
  have hl := lookup_logParserMap env.parseKeyValuePair (str "auditd")
  rw [if_pos rfl] at hl
  simp only [dispatch, hl]
  cases parseAuditd env.parseKeyValuePair timestamp dc host (str "auditd") message with
  | none => rfl
  | some evt =>
    simp only []
    split <;> rfl

theorem mapEffects_runDeferred_parserCalls (s : Step) :
    (s.mapEffects runDeferred).effects.parserCalls = s.effects.parserCalls := by
  cases s <;> rfl

theorem decodeTimestamp_parserCalls (env : Env) (field0 : GoString) (st : Effects) :
    (decodeTimestamp env field0 st).2.parserCalls = st.parserCalls := by
  simp only [decodeTimestamp]
  split <;> rfl

/-- C1: when the read delivers the sample line without a trailing newline, the
message handed to the parser is `uid=42 type=PATH` followed by the 19942 zero
bytes that fill the rest of the buffer, not the message the sender wrote. -/
theorem handleLogRequest_message_zero_padded (env : Env) :
    (handleLogRequest env (some { data := sampleLine, readFails := false })
        Effects.init).effects.parserCalls.map (fun call => (call.dc, call.host, call.topic, call.message))
      = [(str "dc1", str "host1", str "auditd",
          str "uid=42 type=PATH" ++ List.replicate 19942 0)] := by
  rw [handleLogRequest_sampleLine, mapEffects_runDeferred_parserCalls,
    dispatch_auditd_parserCalls, decodeTimestamp_parserCalls]
  rfl

/-- C9: when the read delivers the sample line and also returns an error, the
handler logs the error and closes the connection, but it goes on to invoke the
parser and to call `AddEvent` for the record in the buffer. -/
theorem handleLogRequest_read_error_still_processes :
    handleLogRequest sampleEnv (some { data := sampleLine, readFails := true }) Effects.init
      = Step.done
          { clockReads := 1
            logs := [LogLine.readError]
            parserCalls := [⟨1483228800, str "dc1", str "host1", str "auditd",
                             str "uid=42 type=PATH" ++ List.replicate 19942 0⟩]
            addEventCalls :=
              [{ EventTime := 1483228800, TopicName := str "auditd", DC := str "dc1",
                 Tags := [str "PATH"], Host := str "host1", User := str "42",
                 Data := [(str "uid", Value.string (str "42")),
                          (str "type", Value.string (str "PATH"))] }]
            closes := 1
            latencies := 1
            accepts := 0 } := by
  rw [handleLogRequest_sampleLine]
  generalize List.replicate 19942 0 = pad
  rfl

/-! ## The sequence of `AddEvent` calls -/

theorem decodeTimestamp_addEventCalls (env : Env) (field0 : GoString) (st : Effects) :
    (decodeTimestamp env field0 st).2.addEventCalls = st.addEventCalls := by
  simp only [decodeTimestamp]
  split <;> rfl

/-- The lookup and submission of an `auditd` frame whose parser returns. -/
theorem dispatch_auditd (env : Env) (timestamp : Int) (dc host message : GoString)
    (st : Effects) (evt : UnaddedEvent)
    (hevt : parseAuditd env.parseKeyValuePair timestamp dc host (str "auditd") message
      = some evt) :
    dispatch env timestamp dc host (str "auditd") message st
      = Step.done
          { st with parserCalls := st.parserCalls ++ [⟨timestamp, dc, host, str "auditd", message⟩]
                    addEventCalls := st.addEventCalls ++ [evt]
                    logs := if env.addEventFails st.addEventCalls.length = true
                            then st.logs ++ [LogLine.addEventError] else st.logs } := by
  have hl := lookup_logParserMap env.parseKeyValuePair (str "auditd")
  rw [if_pos rfl] at hl
  simp only [dispatch, hl, hevt]
  split <;> rfl

/-- With string values in the parsed map, the lookup and submission of a frame
end normally and make one `AddEvent` call when the topic is `auditd`, none
otherwise. -/
theorem dispatch_calls (env : Env)
    (hstr : ∀ msg, stringValued (env.parseKeyValuePair msg) = true)
    (timestamp : Int) (dc host topic message : GoString) (st : Effects) :
    ∃ st1 new, dispatch env timestamp dc host topic message st = Step.done st1 ∧
      st1.addEventCalls = st.addEventCalls ++ new ∧
      new.map frameOfEvent
        = if topic = str "auditd" then [(dc, host, topic, env.parseKeyValuePair message)]
          else [] := by
  by_cases ht : topic = str "auditd"
  · subst ht
    obtain ⟨evt, hevt, -, htopic, hdc, hhost, hdata, -⟩ :=
      parseAuditd_of_stringValued env.parseKeyValuePair timestamp dc host (str "auditd")
        message (hstr message)
    rw [dispatch_auditd env timestamp dc host message st evt hevt]
    refine ⟨_, [evt], rfl, rfl, ?_⟩
    simp [frameOfEvent, htopic, hdc, hhost, hdata]
  · have hl := lookup_logParserMap env.parseKeyValuePair topic
    rw [if_neg ht] at hl
    simp only [dispatch, hl]
    refine ⟨_, [], rfl, ?_, ?_⟩
    · simp
    · simp [ht]

theorem submits_eq (parseKeyValuePair : GoString → GoMap) (lg : GoString) :
    submits parseKeyValuePair lg
      = (decide (5 ≤ (stringsSplit lg fieldSep).length) &&
          decide ((stringsSplit lg fieldSep).getD 3 [] = str "auditd")) := by
  simp only [submits, lookup_logParserMap]
  by_cases ht : (stringsSplit lg fieldSep).getD 3 [] = str "auditd"
  · simp only [ht, if_true, Option.isSome_some, decide_True]
  · simp only [ht, if_false, Option.isSome_none, decide_False]

theorem processLine_calls (env : Env)
    (hstr : ∀ msg, stringValued (env.parseKeyValuePair msg) = true)
    (lg : GoString) (st : Effects) :
    ∃ st1 new, processLine env lg st = Step.done st1 ∧
      st1.addEventCalls = st.addEventCalls ++ new ∧
      new.map frameOfEvent
        = if submits env.parseKeyValuePair lg = true then [frameOfLine env.parseKeyValuePair lg]
          else [] := by
  by_cases hlong : 5 ≤ (stringsSplit lg fieldSep).length
  · obtain ⟨st1, new, hd, hcalls, hframes⟩ :=
      dispatch_calls env hstr (decodeTimestamp env ((stringsSplit lg fieldSep).getD 0 []) st).1
        ((stringsSplit lg fieldSep).getD 1 []) ((stringsSplit lg fieldSep).getD 2 [])
        ((stringsSplit lg fieldSep).getD 3 []) ((stringsSplit lg fieldSep).getD 4 [])
        (decodeTimestamp env ((stringsSplit lg fieldSep).getD 0 []) st).2
    refine ⟨st1, new, ?_, ?_, ?_⟩
    · rw [processLine_long env lg st hlong, hd]
    · rw [hcalls, decodeTimestamp_addEventCalls]
    · rw [hframes, submits_eq]
      by_cases ht : (stringsSplit lg fieldSep).getD 3 [] = str "auditd"
      · simp only [ht, hlong, decide_True, Bool.and_self, if_true, frameOfLine]
      · simp only [ht, hlong, decide_True, decide_False, Bool.and_false, if_false]
        rfl
  · have hshort : (stringsSplit lg fieldSep).length < 5 := by omega
    refine ⟨st, [], processLine_short env lg st hshort, by simp, ?_⟩
    rw [submits_eq]
    simp [hlong]

theorem processLines_calls (env : Env)
    (hstr : ∀ msg, stringValued (env.parseKeyValuePair msg) = true)
    (lines : List GoString) (st : Effects) :
    ∃ st1 new, processLines env lines st = Step.done st1 ∧
      st1.addEventCalls = st.addEventCalls ++ new ∧
      new.map frameOfEvent
        = (lines.filter (submits env.parseKeyValuePair)).map
            (frameOfLine env.parseKeyValuePair) := by
  induction lines generalizing st with
  | nil => exact ⟨st, [], rfl, by simp, rfl⟩
  | cons lg rest ih =>
    obtain ⟨st1, new1, h1, hc1, hf1⟩ := processLine_calls env hstr lg st
    obtain ⟨st2, new2, h2, hc2, hf2⟩ := ih st1
    refine ⟨st2, new1 ++ new2, ?_, ?_, ?_⟩
    · simp only [processLines, h1, h2]
    · rw [hc2, hc1, List.append_assoc]
    · rw [List.map_append, hf1, hf2]
      by_cases hs : submits env.parseKeyValuePair lg = true
      · simp [List.filter, hs]
      · simp [List.filter, hs]

/-! ### Independence of the results of `AddEvent` -/

theorem decodeTimestamp_dropLogs (env env2 : Env) (hp : env2.parseRFC3339 = env.parseRFC3339)
    (hn : env2.now = env.now) (field0 : GoString) (a b : Effects)
    (h : a.dropLogs = b.dropLogs) :
    (decodeTimestamp env field0 a).1 = (decodeTimestamp env2 field0 b).1 ∧
    (decodeTimestamp env field0 a).2.dropLogs = (decodeTimestamp env2 field0 b).2.dropLogs := by
  obtain ⟨ac, al, ap, aa, acl, alat, aacc⟩ := a
  obtain ⟨bc, bl, bp, ba, bcl, blat, bacc⟩ := b
  simp only [Effects.dropLogs, Effects.mk.injEq] at h
  obtain ⟨rfl, -, rfl, rfl, rfl, rfl, rfl⟩ := h
  simp only [decodeTimestamp, hp, hn]
  cases env.parseRFC3339 field0 with
  | none => exact ⟨rfl, rfl⟩
  | some t => exact ⟨rfl, rfl⟩

theorem dispatch_dropLogs (env env2 : Env)
    (hk : env2.parseKeyValuePair = env.parseKeyValuePair)
    (timestamp : Int) (dc host topic message : GoString) (a b : Effects)
    (h : a.dropLogs = b.dropLogs) :
    (dispatch env timestamp dc host topic message a).mapEffects Effects.dropLogs
      = (dispatch env2 timestamp dc host topic message b).mapEffects Effects.dropLogs := by
  obtain ⟨ac, al, ap, aa, acl, alat, aacc⟩ := a
  obtain ⟨bc, bl, bp, ba, bcl, blat, bacc⟩ := b
  simp only [Effects.dropLogs, Effects.mk.injEq] at h
  obtain ⟨rfl, -, rfl, rfl, rfl, rfl, rfl⟩ := h
  simp only [dispatch, hk]
  cases List.lookup topic (logParserMap env.parseKeyValuePair) with
  | none => rfl
  | some parser =>
    simp only []
    cases parser timestamp dc host topic message with
    | none => rfl
    | some evt =>
      simp only []
      split <;> split <;> rfl

theorem processLine_dropLogs (env env2 : Env) (hp : env2.parseRFC3339 = env.parseRFC3339)
    (hn : env2.now = env.now) (hk : env2.parseKeyValuePair = env.parseKeyValuePair)
    (lg : GoString) (a b : Effects) (h : a.dropLogs = b.dropLogs) :
    (processLine env lg a).mapEffects Effects.dropLogs
      = (processLine env2 lg b).mapEffects Effects.dropLogs := by
  by_cases hlong : 5 ≤ (stringsSplit lg fieldSep).length
  · rw [processLine_long env lg a hlong, processLine_long env2 lg b hlong]
    obtain ⟨h1, h2⟩ :=
      decodeTimestamp_dropLogs env env2 hp hn ((stringsSplit lg fieldSep).getD 0 []) a b h
    rw [h1]
    exact dispatch_dropLogs env env2 hk _ _ _ _ _ _ _ h2
  · have hshort : (stringsSplit lg fieldSep).length < 5 := by omega
    rw [processLine_short env lg a hshort, processLine_short env2 lg b hshort]
    simp only [Step.mapEffects, h]

theorem processLines_dropLogs (env env2 : Env) (hp : env2.parseRFC3339 = env.parseRFC3339)
    (hn : env2.now = env.now) (hk : env2.parseKeyValuePair = env.parseKeyValuePair)
    (lines : List GoString) (a b : Effects) (h : a.dropLogs = b.dropLogs) :
    (processLines env lines a).mapEffects Effects.dropLogs
      = (processLines env2 lines b).mapEffects Effects.dropLogs := by
  induction lines generalizing a b with
  | nil => simp only [processLines, Step.mapEffects, h]
  | cons lg rest ih =>
    have hl := processLine_dropLogs env env2 hp hn hk lg a b h
    simp only [processLines]
    cases ha : processLine env lg a with
    | done a1 =>
      cases hb : processLine env2 lg b with
      | done b1 =>
        rw [ha, hb] at hl
        simp only [Step.mapEffects, Step.done.injEq] at hl
        exact ih a1 b1 hl
      | panicked b1 =>
        rw [ha, hb] at hl
        simp [Step.mapEffects] at hl
    | panicked a1 =>
      cases hb : processLine env2 lg b with
      | done b1 =>
        rw [ha, hb] at hl
        simp [Step.mapEffects] at hl
      | panicked b1 =>
        rw [ha, hb] at hl
        exact hl

theorem dropLogs_addEventCalls (s t : Step)
    (h : s.mapEffects Effects.dropLogs = t.mapEffects Effects.dropLogs) :
    s.effects.addEventCalls = t.effects.addEventCalls := by
  cases s with
  | done a =>
    cases t with
    | done b =>
      have h2 : a.dropLogs = b.dropLogs := Step.done.inj h
      have h3 : a.dropLogs.addEventCalls = b.dropLogs.addEventCalls := by rw [h2]
      exact h3
    | panicked b => exact Step.noConfusion h
  | panicked a =>
    cases t with
    | done b => exact Step.noConfusion h
    | panicked b =>
      have h2 : a.dropLogs = b.dropLogs := Step.panicked.inj h
      have h3 : a.dropLogs.addEventCalls = b.dropLogs.addEventCalls := by rw [h2]
      exact h3

theorem mapEffects_runDeferred_addEventCalls (s : Step) :
    (s.mapEffects runDeferred).effects.addEventCalls = s.effects.addEventCalls := by
  cases s <;> rfl

/-- C5: when the parsed maps hold string values, the handler ends normally and
its `AddEvent` calls are one per line that has at least 5 fields and the topic
`auditd`, in line order, each carrying the datacenter, host, topic and parsed
message of its line; the calls are the same under any other assignment of
failures to the results of `AddEvent`, so a failure neither stops the later
lines nor causes a second submission. -/
theorem addEvent_calls_one_per_line (env : Env) (fails2 : Nat → Bool) (c : Conn)
    (st : Effects) (hstr : ∀ msg, stringValued (env.parseKeyValuePair msg) = true) :
    (handleLogRequest env (some c) st).isDone = true ∧
    (handleLogRequest { env with addEventFails := fails2 } (some c) st).effects.addEventCalls
      = (handleLogRequest env (some c) st).effects.addEventCalls ∧
    ∃ new, (handleLogRequest env (some c) st).effects.addEventCalls = st.addEventCalls ++ new ∧
      new.map frameOfEvent
        = ((bufLines c.data).filter (submits env.parseKeyValuePair)).map
            (frameOfLine env.parseKeyValuePair) := by
  obtain ⟨st1, new, hdone, hcalls, hframes⟩ :=
    processLines_calls env hstr (bufLines c.data) (afterRead c (readClock st))
  have hinit : (afterRead c (readClock st)).addEventCalls = st.addEventCalls := by
    simp only [afterRead, readClock]
    split <;> rfl
  refine ⟨?_, ?_, new, ?_, hframes⟩
  · simp only [handleLogRequest, hdone]
    rfl
  · simp only [handleLogRequest]
    rw [mapEffects_runDeferred_addEventCalls, mapEffects_runDeferred_addEventCalls]
    exact dropLogs_addEventCalls _ _
      (processLines_dropLogs { env with addEventFails := fails2 } env rfl rfl rfl
        (bufLines c.data) _ _ rfl)
  · simp only [handleLogRequest, hdone]
    rw [← hinit, ← hcalls]
    rfl

/-! ## The statements at sample inputs -/

/-- The buffer of a read that delivers the sample batch holds two lines. -/
theorem bufLines_sampleBatch :
    bufLines sampleBatch
      = [] ++ str "no separators here" :: [sampleLine ++ List.replicate 19923 0] := by
  rw [bufLines_of_le sampleBatch (by decide)]
  have h : stringsSplit sampleBatch newline = [str "no separators here", sampleLine] := by
    decide
  have hk : bufSize - sampleBatch.length = 19923 := by decide
  rw [h, hk]
  rfl

/-- The statement C2 at the sample batch, whose first line has one field. -/
theorem short_line_discarded_witness :
    bufLines ({ data := sampleBatch, readFails := false } : Conn).data
      = [] ++ str "no separators here" :: [sampleLine ++ List.replicate 19923 0] ∧
    (stringsSplit (str "no separators here") fieldSep).length < 5 ∧
    ((∀ st1, processLine sampleEnv (str "no separators here") st1 = Step.done st1) ∧
     handleLogRequest sampleEnv (some { data := sampleBatch, readFails := false }) Effects.init
      = (processLines sampleEnv ([] ++ [sampleLine ++ List.replicate 19923 0])
          (afterRead { data := sampleBatch, readFails := false }
            (readClock Effects.init))).mapEffects runDeferred) :=
  ⟨bufLines_sampleBatch, by decide,
   short_line_discarded sampleEnv { data := sampleBatch, readFails := false } Effects.init []
     [sampleLine ++ List.replicate 19923 0] (str "no separators here")
     bufLines_sampleBatch (by decide)⟩

/-- The statement C4 at a line of topic `nginx`, followed by the sample line. -/
theorem unregistered_topic_dropped_witness :
    5 ≤ (stringsSplit sampleUnknownLine fieldSep).length ∧
    (stringsSplit sampleUnknownLine fieldSep).getD 3 [] ≠ str "auditd" ∧
    (List.lookup ((stringsSplit sampleUnknownLine fieldSep).getD 3 [])
        (logParserMap sampleEnv.parseKeyValuePair) = none ∧
     (processLine sampleEnv sampleUnknownLine Effects.init).isDone = true ∧
     (processLine sampleEnv sampleUnknownLine Effects.init).effects.parserCalls
       = Effects.init.parserCalls ∧
     (processLine sampleEnv sampleUnknownLine Effects.init).effects.addEventCalls
       = Effects.init.addEventCalls ∧
     (processLine sampleEnv sampleUnknownLine Effects.init).effects.logs
       = (decodeTimestamp sampleEnv ((stringsSplit sampleUnknownLine fieldSep).getD 0 [])
            Effects.init).2.logs
           ++ [LogLine.unrecognizedTopic ((stringsSplit sampleUnknownLine fieldSep).getD 3 [])] ∧
     processLines sampleEnv (sampleUnknownLine :: [sampleLine]) Effects.init
       = processLines sampleEnv [sampleLine]
           (processLine sampleEnv sampleUnknownLine Effects.init).effects) :=
  ⟨by decide, by decide,
   unregistered_topic_dropped sampleEnv sampleUnknownLine [sampleLine] Effects.init
     (by decide) (by decide)⟩

/-- The statement C6 at the sample line. -/
theorem timestamp_parsed_or_now_witness :
    5 ≤ (stringsSplit sampleLine fieldSep).length ∧
    ((∀ t, sampleEnv.parseRFC3339 ((stringsSplit sampleLine fieldSep).getD 0 []) = some t →
      processLine sampleEnv sampleLine Effects.init
        = dispatch sampleEnv t ((stringsSplit sampleLine fieldSep).getD 1 [])
            ((stringsSplit sampleLine fieldSep).getD 2 [])
            ((stringsSplit sampleLine fieldSep).getD 3 [])
            ((stringsSplit sampleLine fieldSep).getD 4 []) Effects.init) ∧
     (sampleEnv.parseRFC3339 ((stringsSplit sampleLine fieldSep).getD 0 []) = none →
      processLine sampleEnv sampleLine Effects.init
        = dispatch sampleEnv (sampleEnv.now Effects.init.clockReads)
            ((stringsSplit sampleLine fieldSep).getD 1 [])
            ((stringsSplit sampleLine fieldSep).getD 2 [])
            ((stringsSplit sampleLine fieldSep).getD 3 [])
            ((stringsSplit sampleLine fieldSep).getD 4 [])
            { Effects.init with
                logs := Effects.init.logs
                  ++ [LogLine.timestampError ((stringsSplit sampleLine fieldSep).getD 0 [])]
                clockReads := Effects.init.clockReads + 1 }) ∧
     (∀ (timestamp : Int) (dc host topic msg : GoString) (evt : UnaddedEvent),
       parseAuditd sampleEnv.parseKeyValuePair timestamp dc host topic msg = some evt →
         evt.EventTime = timestamp)) :=
  ⟨by decide, timestamp_parsed_or_now sampleEnv sampleLine Effects.init (by decide)⟩

/-- A line whose field 0 is not a timestamp, in an environment whose RFC3339
parser rejects everything: the event carries the clock value. -/
theorem processLine_clock_example :
    processLine { sampleEnv with parseRFC3339 := fun _ => none }
        (str "yesterday^0dc1^0host1^0auditd^0uid=42 type=PATH") Effects.init
      = Step.done
          { clockReads := 1
            logs := [LogLine.timestampError (str "yesterday")]
            parserCalls := [⟨1500000000, str "dc1", str "host1", str "auditd",
                             str "uid=42 type=PATH"⟩]
            addEventCalls :=
              [{ EventTime := 1500000000, TopicName := str "auditd", DC := str "dc1",
                 Tags := [str "PATH"], Host := str "host1", User := str "42",
                 Data := [(str "uid", Value.string (str "42")),
                          (str "type", Value.string (str "PATH"))] }]
            closes := 0
            latencies := 0
            accepts := 0 } := by
  decide

/-- The statement C5 at the sample line, against a store that fails every call. -/
theorem addEvent_calls_one_per_line_witness :
    (∀ msg, stringValued (sampleEnv.parseKeyValuePair msg) = true) ∧
    ((handleLogRequest sampleEnv (some { data := sampleLine, readFails := false })
        Effects.init).isDone = true ∧
     (handleLogRequest { sampleEnv with addEventFails := fun _ => true }
        (some { data := sampleLine, readFails := false }) Effects.init).effects.addEventCalls
       = (handleLogRequest sampleEnv (some { data := sampleLine, readFails := false })
            Effects.init).effects.addEventCalls ∧
     ∃ new, (handleLogRequest sampleEnv (some { data := sampleLine, readFails := false })
          Effects.init).effects.addEventCalls = Effects.init.addEventCalls ++ new ∧
       new.map frameOfEvent
         = ((bufLines ({ data := sampleLine, readFails := false } : Conn).data).filter
              (submits sampleEnv.parseKeyValuePair)).map
             (frameOfLine sampleEnv.parseKeyValuePair)) :=
  ⟨fun _ => rfl,
   addEvent_calls_one_per_line sampleEnv (fun _ => true)
     { data := sampleLine, readFails := false } Effects.init (fun _ => rfl)⟩

end Eventmaster
